import Mathlib

/-!
Shallow embedding of the CrabTorch tensor core (src/tensor.rs, src/error.rs).

A `Tensor` is a strided view over a shared buffer; the buffer `data` is
modelled as the list of elements it stores.  `RResult` distinguishes the
three ways a Rust call can end: returning a value, returning a
`TensorError` (carrying its message string), or panicking (out-of-bounds
slice indexing, division by zero).  Machine integers (`usize`) are
modelled as `Nat`; every subtraction performed by the source is of the
form `x + a - a` in the executions covered by the theorems below, so
truncated subtraction agrees with the source's semantics there.
-/

namespace CrabTorch

/-- Outcome of a Rust call: `ok`, a recoverable `TensorError` (with its
message), or a panic (with the panic message). -/
inductive RResult (α : Type) where
  | ok : α → RResult α
  | err : String → RResult α
  | crash : String → RResult α
deriving DecidableEq

/-- The `Tensor<T>` struct: shared buffer, base offset, cached size,
shape and strides (src/tensor.rs lines 7-14). -/
structure Tensor (α : Type) where
  data : List α
  base_index : Nat
  size : Nat
  shape : List Nat
  strides : List Nat
deriving DecidableEq

/-- Reading `data[i]` on a `Vec`: panics when the index is out of bounds. -/
def dataGet (data : List α) (i : Nat) : RResult α :=
  if h : i < data.length then .ok (data.get ⟨i, h⟩)
  else .crash "index out of bounds"

/-- Product of a list of extents. -/
def listProd : List Nat → Nat
  | [] => 1
  | a :: as => a * listProd as

/-- `get_size_and_strides` (src/tensor.rs lines 16-24): scan the shape
from last to first, recording the running product as the stride of each
dimension; the final product is the size. -/
def get_size_and_strides : List Nat → Nat × List Nat
  | [] => (1, [])
  | d :: rest =>
    ((get_size_and_strides rest).1 * d,
     (get_size_and_strides rest).1 :: (get_size_and_strides rest).2)

/-- The out-of-range error message built at src/tensor.rs line 37. -/
def oorMsg (v i : Nat) : String :=
  "index " ++ toString v ++ " is out of range for dimension " ++ toString i

/-- The loop body of `Tensor::get_data_index` (src/tensor.rs lines 31-40):
walk the supplied indices against the shape/stride lists, accumulating
`next_index * strides[i]`.  With `tile` set the index is reduced modulo
the extent (a zero extent makes Rust's `%=` panic); otherwise an index
`≥` the extent yields the out-of-range error.  The final patterns model
the panic Rust would raise if `shape`/`strides` were shorter than the
index (impossible for well-formed tensors, guarded by the caller). -/
def resolveLoop (tile : Bool) : Nat → Nat → List Nat → List Nat → List Nat → RResult Nat
  | acc, _, [], _, _ => .ok acc
  | acc, i, idx :: idxs, sh :: shs, st :: sts =>
    if tile then
      if sh = 0 then .crash "attempt to calculate the remainder with a divisor of zero"
      else resolveLoop tile (acc + (idx % sh) * st) (i + 1) idxs shs sts
    else if idx ≥ sh then .err (oorMsg idx i)
    else resolveLoop tile (acc + idx * st) (i + 1) idxs shs sts
  | _, _, _ :: _, _, _ => .crash "index out of bounds"

/-- `Tensor::get_data_index` (src/tensor.rs lines 27-42). -/
def Tensor.get_data_index (t : Tensor α) (index : List Nat) (tile : Bool) : RResult Nat :=
  if index.length > t.shape.length then .err "index has too many dimensions"
  else resolveLoop tile t.base_index 0 index t.shape t.strides

/-- `Tensor::get` (src/tensor.rs lines 44-55): resolve the offset without
tiling, then build the residual view sharing the same buffer. -/
def Tensor.get (t : Tensor α) (index : List Nat) : RResult (Tensor α) :=
  match t.get_data_index index false with
  | .ok b =>
    .ok { data := t.data
          base_index := b
          size := (get_size_and_strides (t.shape.drop index.length)).1
          shape := t.shape.drop index.length
          strides := t.strides.drop index.length }
  | .err e => .err e
  | .crash p => .crash p

/-- `Tensor::rank` (src/tensor.rs lines 57-59). -/
def Tensor.rank (t : Tensor α) : Nat := t.shape.length

/-- `Tensor::is_scalar` (src/tensor.rs lines 69-71). -/
def Tensor.is_scalar (t : Tensor α) : Bool := t.rank = 0

/-- `Tensor::reshape` (src/tensor.rs lines 73-85). -/
def Tensor.reshape (t : Tensor α) (new_shape : List Nat) : RResult (Tensor α) :=
  if (get_size_and_strides new_shape).1 ≠ t.size then
    .err "new shape cannot be of a different size"
  else
    .ok { data := t.data
          base_index := t.base_index
          size := t.size
          shape := new_shape
          strides := (get_size_and_strides new_shape).2 }

/-- `Tensor::flatten` (src/tensor.rs lines 87-89). -/
def Tensor.flatten (t : Tensor α) : RResult (Tensor α) :=
  t.reshape [t.size]

/-- `FromIterator for Tensor` (src/tensor.rs lines 92-103): collect the
sequence into a fresh 1-D buffer. -/
def Tensor.from_iter (l : List α) : Tensor α :=
  { size := l.length
    shape := [l.length]
    data := l
    base_index := 0
    strides := [1] }

/-- `Tensor::from_shape` (src/tensor.rs lines 106-115). -/
def Tensor.from_shape (v : α) (shape : List Nat) : Tensor α :=
  { data := List.replicate (get_size_and_strides shape).1 v
    base_index := 0
    size := (get_size_and_strides shape).1
    strides := (get_size_and_strides shape).2
    shape := shape }

/-- `Tensor::from_array` (src/tensor.rs lines 117-125). -/
def Tensor.from_array (arr : List α) : Tensor α :=
  { base_index := 0
    strides := [1]
    shape := [arr.length]
    size := arr.length
    data := arr }

/-- `Tensor::scalar` (src/tensor.rs lines 127-129). -/
def Tensor.scalar (v : α) : Tensor α :=
  Tensor.from_shape v []

/-- `Tensor::rand` (src/tensor.rs lines 158-170); the thread-local random
generator is modelled as an arbitrary value stream `g`. -/
def Tensor.rand (g : Nat → α) (shape : List Nat) : Tensor α :=
  { data := (List.range (get_size_and_strides shape).1).map g
    base_index := 0
    size := (get_size_and_strides shape).1
    strides := (get_size_and_strides shape).2
    shape := shape }

/-- `Tensor::linspace` (src/tensor.rs lines 151-155), instantiated at the
rationals (any element type with the four operations and `From<u32>`). -/
def Tensor.linspace (x0 xend : ℚ) (n : Nat) : Tensor ℚ :=
  Tensor.from_iter ((List.range n).map (fun x => x0 + (x : ℚ) * ((xend - x0) / (n : ℚ))))

/-- State of `TensorIndexIterator` (src/tensor.rs lines 219-224). -/
structure IterState (α : Type) where
  tensor : Tensor α
  index : List Nat
  data_index : Nat
  is_done : Bool
deriving DecidableEq

/-- `TensorIndexIterator::new` (src/tensor.rs lines 227-234). -/
def initState (t : Tensor α) : IterState α :=
  { index := List.replicate t.rank 0
    data_index := t.base_index
    tensor := t
    is_done := false }

/-- The carry loop of `TensorIndexIterator::next` (src/tensor.rs lines
245-257), processing dimensions from the last toward the first.  The
head of each list is the leftmost remaining dimension; the recursive
call handles the later dimensions first, exactly as the Rust loop
`for d in (0..rank).rev()` does, and the head is touched only when every
later dimension wrapped (otherwise the Rust loop already broke).  The
returned flag records whether the carry propagated past the first listed
dimension. -/
def carry : List Nat → List Nat → List Nat → Nat → List Nat × Nat × Bool
  | i :: is, s :: ss, st :: sts, di =>
    match carry is ss sts di with
    | (is', di', true) =>
      if i + 1 ≥ s then (0 :: is', di' + st - s * st, true)
      else ((i + 1) :: is', di' + st, false)
    | (is', di', false) => (i :: is', di', false)
  | _, _, _, di => ([], di, true)

/-- `TensorIndexIterator::next` (src/tensor.rs lines 240-259): when not
done, yield the current offset and advance the odometer.  `is_done` can
only be set inside the loop at `d == 0`, so it never becomes true when
the rank is zero — the loop body never runs (the source has no rank-0
special case). -/
def nextF (st : IterState α) : Option Nat × IterState α :=
  if st.is_done then (none, st)
  else
    match carry st.index st.tensor.shape st.tensor.strides st.data_index with
    | (idx', di', wrapped) =>
      (some st.data_index,
       { st with index := idx', data_index := di',
                 is_done := wrapped && !st.tensor.shape.isEmpty })

/-- `TensorIterator::next` (src/tensor.rs lines 277-285): pull an offset
from the index iterator, then clone the element there. -/
def nextElem (st : IterState α) : Option (RResult α) × IterState α :=
  match nextF st with
  | (some i, st') => (some (dataGet st'.tensor.data i), st')
  | (none, st') => (none, st')

/-- Run the index iterator at most `fuel` times, collecting the yielded
offsets in order and returning the final state. -/
def runOffsets : Nat → IterState α → List Nat × IterState α
  | 0, st => ([], st)
  | fuel + 1, st =>
    match nextF st with
    | (none, st') => ([], st')
    | (some o, st') => (o :: (runOffsets fuel st').1, (runOffsets fuel st').2)

/-- Run the element iterator at most `fuel` times, collecting the read
outcomes in order. -/
def runElems : Nat → IterState α → List (RResult α) × IterState α
  | 0, st => ([], st)
  | fuel + 1, st =>
    match nextElem st with
    | (none, st') => ([], st')
    | (some r, st') => (r :: (runElems fuel st').1, (runElems fuel st').2)

/-- The element-collection loop of `Tensor::deep_clone` (`for v in
self.clone()`): `none` when the iterator has not finished within `fuel`
steps (the Rust loop is still running) or when an element read panics. -/
def collectElems : Nat → IterState α → Option (List α)
  | 0, _ => none
  | fuel + 1, st =>
    match nextElem st with
    | (none, _) => some []
    | (some (.ok v), st') => (collectElems fuel st').map (fun vs => v :: vs)
    | (some _, _) => none

/-- `Tensor::deep_clone` (src/tensor.rs lines 131-145): walk the iterator
collecting every element, then rebuild a contiguous tensor over the
fresh buffer with strides recomputed from the same shape and base 0.
`none` means the call never returns within `fuel` iterator steps. -/
def Tensor.deep_clone (fuel : Nat) (t : Tensor α) : Option (Tensor α) :=
  match collectElems fuel (initState t) with
  | none => none
  | some vs =>
    some { data := vs
           base_index := 0
           size := (get_size_and_strides t.shape).1
           shape := t.shape
           strides := (get_size_and_strides t.shape).2 }

/-- One position of the `Display` loop (src/tensor.rs lines 181-212):
count the brackets opening and closing at flat position `i` from the
non-innermost strides, emit them around the element's text together
with the separator, and update the nesting depth, appending a newline
and `depth` spaces whenever a bracket closed and depth stays positive. -/
def fmtStep (t : Tensor α) (toStr : α → String) (st : Int × String) (i : Nat) :
    RResult (Int × String) :=
  let opens := (if i = 0 then 1 else 0) +
    (t.strides.dropLast.filter (fun s => i % s = 0)).length
  let closes := (if i + 1 = t.size then 1 else 0) +
    (t.strides.dropLast.filter (fun s => (i + 1) % s = 0)).length
  match dataGet t.data (t.base_index + i) with
  | .ok v =>
    let acc1 := st.2 ++ String.join (List.replicate opens "[") ++ toStr v
    let acc2 := if closes = 0 then acc1 ++ ", " else acc1
    let acc3 := acc2 ++ String.join (List.replicate closes "]")
    let depth := st.1 + (opens : Int) - (closes : Int)
    let acc4 :=
      if closes > 0 ∧ depth > 0 then
        acc3 ++ "\n" ++ String.join (List.replicate depth.toNat " ")
      else acc3
    .ok (depth, acc4)
  | .err e => .err e
  | .crash p => .crash p

/-- Fold a fallible step over a list, stopping at the first error/panic. -/
def foldRR (f : σ → Nat → RResult σ) : σ → List Nat → RResult σ
  | s, [] => .ok s
  | s, x :: xs =>
    match f s x with
    | .ok s' => foldRR f s' xs
    | .err e => .err e
    | .crash p => .crash p

/-- `impl Display for Tensor` (src/tensor.rs lines 172-215): scalars
render as the bare element; otherwise run the bracket loop over the
flat positions `0..size`. -/
def Tensor.fmt (t : Tensor α) (toStr : α → String) : RResult String :=
  if t.is_scalar then
    match dataGet t.data t.base_index with
    | .ok v => .ok (toStr v)
    | .err e => .err e
    | .crash p => .crash p
  else
    match foldRR (fmtStep t toStr) ((0 : Int), "") (List.range t.size) with
    | .ok s => .ok s.2
    | .err e => .err e
    | .crash p => .crash p

/-- Dot product of two lists, truncating at the shorter one: the flat
offset contributed by a multi-index against a stride list. -/
def dot : List Nat → List Nat → Nat
  | a :: as, b :: bs => a * b + dot as bs
  | _, _ => 0

/-- The `k`-th multi-index of a shape in lexicographic (row-major)
order: the leading digit is `k` divided by the product of the remaining
extents, then recurse on the remainder. -/
def unrank : List Nat → Nat → List Nat
  | [], _ => []
  | _ :: ss, k => (k / listProd ss) :: unrank ss (k % listProd ss)

/-- The iterator state reached after `k` yields (`k ≤ listProd shape`)
on a positive-extent tensor: the odometer holds the `k`-th multi-index
(all zeros again at `k = size`, where `is_done` has been set). -/
def stateAt (t : Tensor α) (k : Nat) : IterState α :=
  { tensor := t
    index := unrank t.shape (k % listProd t.shape)
    data_index := t.base_index + dot (unrank t.shape (k % listProd t.shape)) t.strides
    is_done := decide (k = listProd t.shape) }

/-- Tensors reachable through the public API: the constructors, and the
views/copies derived from an already reachable tensor by `get`,
`reshape`, `flatten`, or `deep_clone` (when the latter returns).
`linspace` builds its tensor through `from_iter` and is covered by that
case (see `reachable_invariants`). -/
inductive Reachable : Tensor α → Prop where
  | from_array (arr : List α) : Reachable (Tensor.from_array arr)
  | from_iter (l : List α) : Reachable (Tensor.from_iter l)
  | from_shape (v : α) (shape : List Nat) : Reachable (Tensor.from_shape v shape)
  | scalar (v : α) : Reachable (Tensor.scalar v)
  | rand (g : Nat → α) (shape : List Nat) : Reachable (Tensor.rand g shape)
  | get (t t' : Tensor α) (ix : List Nat) :
      Reachable t → t.get ix = .ok t' → Reachable t'
  | reshape (t t' : Tensor α) (s2 : List Nat) :
      Reachable t → t.reshape s2 = .ok t' → Reachable t'
  | flatten (t t' : Tensor α) :
      Reachable t → t.flatten = .ok t' → Reachable t'
  | deep_clone (fuel : Nat) (t t' : Tensor α) :
      Reachable t → t.deep_clone fuel = some t' → Reachable t'

/-- The invariants claimed for every reachable tensor: cached size is
the product of the extents, strides are the row-major strides of the
shape, and (for positive extents) the largest reachable offset is
strictly inside the buffer. -/
def InvClaim (t : Tensor α) : Prop :=
  t.size = listProd t.shape ∧
  t.strides = (get_size_and_strides t.shape).2 ∧
  ((∀ x ∈ t.shape, 0 < x) →
    t.base_index + dot (t.shape.map (fun x => x - 1)) t.strides < t.data.length)

/-- Strengthened inductive form of the invariant: the bound is phrased
through the size, which is what each operation actually preserves. -/
def InvCore (t : Tensor α) : Prop :=
  t.size = listProd t.shape ∧
  t.strides = (get_size_and_strides t.shape).2 ∧
  (0 < listProd t.shape → t.base_index + listProd t.shape ≤ t.data.length)

/-- The tensor produced by `from_array([1,2,3,4,5,6]).reshape([2,3])`. -/
def t23 : Tensor Nat :=
  { data := [1, 2, 3, 4, 5, 6]
    base_index := 0
    size := 6
    shape := [2, 3]
    strides := [3, 1] }

/-- The tensor produced by `from_array([1,2,3,4]).reshape([2,2])`. -/
def t22 : Tensor Nat :=
  { data := [1, 2, 3, 4]
    base_index := 0
    size := 4
    shape := [2, 2]
    strides := [2, 1] }

/-- The scalar view produced by `from_array([10,20]).get([1])`. -/
def scalarView : Tensor Nat :=
  { data := [10, 20]
    base_index := 1
    size := 1
    shape := []
    strides := [] }

/-! ### Basic lemmas about the shape/stride calculator -/

theorem gss_fst (s : List Nat) : (get_size_and_strides s).1 = listProd s := by
  induction s with
  | nil => rfl
  | cons a as ih => simp [get_size_and_strides, listProd, ih, Nat.mul_comm]

theorem gss_snd_length (s : List Nat) :
    (get_size_and_strides s).2.length = s.length := by
  induction s with
  | nil => rfl
  | cons a as ih => simp [get_size_and_strides, ih]

theorem gss_snd_cons (a : Nat) (as : List Nat) :
    (get_size_and_strides (a :: as)).2 =
      listProd as :: (get_size_and_strides as).2 := by
  simp [get_size_and_strides, gss_fst]

theorem gss_snd_drop (s : List Nat) :
    ∀ k, (get_size_and_strides s).2.drop k = (get_size_and_strides (s.drop k)).2 := by
  induction s with
  | nil => intro k; simp [get_size_and_strides]
  | cons a as ih =>
    intro k
    cases k with
    | zero => simp
    | succ k => simpa [gss_snd_cons] using ih k

theorem listProd_pos {s : List Nat} (h : ∀ x ∈ s, 0 < x) : 0 < listProd s := by
  induction s with
  | nil => simp [listProd]
  | cons a as ih =>
    have ha := h a (by simp)
    have has := ih (fun x hx => h x (by simp [hx]))
    simpa [listProd] using Nat.mul_pos ha has

theorem pos_of_listProd_pos {s : List Nat} (h : 0 < listProd s) : ∀ x ∈ s, 0 < x := by
  induction s with
  | nil => simp
  | cons a as ih =>
    intro x hx
    have h' : a ≠ 0 ∧ listProd as ≠ 0 := by
      have hne : a * listProd as ≠ 0 := by
        have : 0 < a * listProd as := by simpa [listProd] using h
        omega
      exact mul_ne_zero_iff.mp hne
    rcases List.mem_cons.mp hx with rfl | hx'
    · exact Nat.pos_of_ne_zero h'.1
    · exact ih (Nat.pos_of_ne_zero h'.2) x hx'

/-! ### Lemmas about `dot` and `unrank` -/

theorem dot_nil_left (l : List Nat) : dot [] l = 0 := by cases l <;> rfl

theorem dot_replicate_zero (n : Nat) (l : List Nat) :
    dot (List.replicate n 0) l = 0 := by
  induction n generalizing l with
  | zero => simpa using dot_nil_left l
  | succ n ih =>
    cases l with
    | nil => rfl
    | cons b bs => simp [List.replicate, dot, ih]

theorem unrank_zero (s : List Nat) : unrank s 0 = List.replicate s.length 0 := by
  induction s with
  | nil => rfl
  | cons a as ih => simp [unrank, ih, List.replicate]

theorem unrank_length (s : List Nat) (k : Nat) : (unrank s k).length = s.length := by
  induction s generalizing k with
  | nil => rfl
  | cons a as ih => simp [unrank, ih]

/-- For positive extents, the sum of `(extent − 1) · stride` over the
row-major strides is exactly `size − 1`. -/
theorem dot_sub_one_strides {s : List Nat} (h : ∀ x ∈ s, 0 < x) :
    dot (s.map (fun x => x - 1)) (get_size_and_strides s).2 + 1 = listProd s := by
  induction s with
  | nil => rfl
  | cons a as ih =>
    have ha := h a (by simp)
    have ihs := ih (fun x hx => h x (by simp [hx]))
    have hsucc : a - 1 + 1 = a := Nat.succ_pred_eq_of_pos ha
    simp only [List.map_cons, gss_snd_cons, gss_fst, dot, listProd]
    calc (a - 1) * listProd as +
          dot (as.map (fun x => x - 1)) (get_size_and_strides as).2 + 1
        = (a - 1) * listProd as +
          (dot (as.map (fun x => x - 1)) (get_size_and_strides as).2 + 1) := by
          rw [Nat.add_assoc]
      _ = (a - 1) * listProd as + listProd as := by rw [ihs]
      _ = (a - 1 + 1) * listProd as := (Nat.succ_mul _ _).symm
      _ = a * listProd as := by rw [hsucc]

/-! ### Characterizing the index resolver -/

/-- An out-of-range message never coincides with the dimensionality
message: the fixed text alone is already longer. -/
theorem oorMsg_ne_dim (v i : Nat) : oorMsg v i ≠ "index has too many dimensions" := by
  intro h
  have hlen := congrArg String.length h
  simp only [oorMsg, String.length_append] at hlen
  have h6 : ("index " : String).length = 6 := by decide
  have h31 : (" is out of range for dimension " : String).length = 31 := by decide
  have h29 : ("index has too many dimensions" : String).length = 29 := by decide
  omega

/-- Non-tiling resolution trichotomy: either every supplied index is in
range and the loop returns the accumulated offset, or there is a first
out-of-range dimension and the loop reports exactly it. -/
theorem resolveLoop_cases (ix : List Nat) :
    ∀ (shs sts : List Nat) (acc i : Nat),
      ix.length ≤ shs.length → ix.length ≤ sts.length →
      ((∀ j, j < ix.length → ix.getD j 0 < shs.getD j 0) ∧
        resolveLoop false acc i ix shs sts = .ok (acc + dot ix sts)) ∨
      (∃ j, j < ix.length ∧ (∀ l, l < j → ix.getD l 0 < shs.getD l 0) ∧
        shs.getD j 0 ≤ ix.getD j 0 ∧
        resolveLoop false acc i ix shs sts = .err (oorMsg (ix.getD j 0) (i + j))) := by
  induction ix with
  | nil =>
    intro shs sts acc i _ _
    left
    constructor
    · intro j hj; simp at hj
    · simp [resolveLoop, dot_nil_left]
  | cons a ix' ih =>
    intro shs sts acc i hsh hst
    match shs, sts with
    | s :: shs', c :: sts' =>
      by_cases hrange : a ≥ s
      · right
        exact ⟨0, by simp, by omega, by simpa using hrange,
          by simp [resolveLoop, hrange]⟩
      · have ha : a < s := by omega
        rcases ih shs' sts' (acc + a * c) (i + 1)
            (by simpa using hsh) (by simpa using hst) with
          ⟨hvalid, hres⟩ | ⟨j, hj, hpre, hviol, hres⟩
        · left
          constructor
          · intro j hj
            cases j with
            | zero => simpa using ha
            | succ j => simpa using hvalid j (by simpa using hj)
          · simp only [resolveLoop, if_neg (by omega : ¬a ≥ s), if_neg (Bool.false_ne_true)]
            rw [hres]
            simp [dot, Nat.add_assoc]
        · right
          refine ⟨j + 1, ?_, ?_, ?_, ?_⟩
          · simp only [List.length_cons]
            omega
          · intro l hl
            cases l with
            | zero => simpa using ha
            | succ l => simpa using hpre l (by omega)
          · simpa using hviol
          · simp only [resolveLoop, if_neg (by omega : ¬a ≥ s), if_neg (Bool.false_ne_true)]
            rw [hres]
            have harith : i + 1 + j = i + (j + 1) := by omega
            rw [harith]
            simp [List.getD_cons_succ]

/-- Tiling resolution always succeeds on positive consumed extents and
computes the modulo-wrapped offset. -/
theorem resolveLoop_tile (ix : List Nat) :
    ∀ (shs sts : List Nat) (acc i : Nat),
      ix.length ≤ shs.length → ix.length ≤ sts.length →
      (∀ j, j < ix.length → 0 < shs.getD j 0) →
      resolveLoop true acc i ix shs sts =
        .ok (acc + dot (List.zipWith (fun a s => a % s) ix shs) sts) := by
  induction ix with
  | nil =>
    intro shs sts acc i _ _ _
    simp [resolveLoop, dot_nil_left]
  | cons a ix' ih =>
    intro shs sts acc i hsh hst hpos
    match shs, sts with
    | s :: shs', c :: sts' =>
      have hs : s ≠ 0 := by
        have := hpos 0 (by simp)
        simpa using Nat.pos_iff_ne_zero.mp (by simpa using this)
      simp only [resolveLoop, if_pos rfl, if_neg hs]
      rw [ih shs' sts' (acc + a % s * c) (i + 1) (by simpa using hsh)
        (by simpa using hst) (fun j hj => by simpa using hpos (j + 1) (by simpa using hj))]
      simp [dot, Nat.add_assoc]

/-- Offset bound: a valid partial index against the row-major strides,
plus the full extent of the residual block, stays within the size. -/
theorem dot_add_prod_drop_le (ix : List Nat) :
    ∀ (s : List Nat), ix.length ≤ s.length →
      (∀ j, j < ix.length → ix.getD j 0 < s.getD j 0) →
      dot ix (get_size_and_strides s).2 + listProd (s.drop ix.length) ≤ listProd s := by
  induction ix with
  | nil =>
    intro s _ _
    simp [dot_nil_left]
  | cons a ix' ih =>
    intro s hlen hvalid
    match s with
    | b :: s' =>
      have hab : a < b := by simpa using hvalid 0 (by simp)
      have ih' := ih s' (by simpa using hlen)
        (fun j hj => by simpa using hvalid (j + 1) (by simpa using hj))
      simp only [gss_snd_cons, gss_fst, dot, List.length_cons, List.drop_succ_cons, listProd]
      calc a * listProd s' +
            dot ix' (get_size_and_strides s').2 + listProd (s'.drop ix'.length)
          = a * listProd s' +
            (dot ix' (get_size_and_strides s').2 + listProd (s'.drop ix'.length)) := by
            rw [Nat.add_assoc]
        _ ≤ a * listProd s' + listProd s' := Nat.add_le_add_left ih' _
        _ = (a + 1) * listProd s' := (Nat.succ_mul _ _).symm
        _ ≤ b * listProd s' := Nat.mul_le_mul_right _ hab

/-- Success of `get_data_index` without tiling forces the guard and all
range checks to pass, and pins down the returned offset. -/
theorem gdi_ok_elim {t : Tensor α} {ix : List Nat} {b : Nat}
    (hlen : t.strides.length = t.shape.length)
    (h : t.get_data_index ix false = .ok b) :
    ix.length ≤ t.shape.length ∧
    (∀ j, j < ix.length → ix.getD j 0 < t.shape.getD j 0) ∧
    b = t.base_index + dot ix t.strides := by
  have hguard : ¬ ix.length > t.shape.length := by
    intro hgt
    simp [Tensor.get_data_index, if_pos hgt] at h
  rw [Tensor.get_data_index, if_neg hguard] at h
  rcases resolveLoop_cases ix t.shape t.strides t.base_index 0
      (by omega) (by omega) with ⟨hvalid, hres⟩ | ⟨j, _, _, _, hres⟩
  · rw [hres] at h
    exact ⟨by omega, hvalid, (RResult.ok.inj h).symm⟩
  · rw [hres] at h
    exact absurd h (by simp)

/-- `get` succeeds exactly when `get_data_index` does, and then returns
the literal residual view record. -/
theorem get_ok_elim {t t' : Tensor α} {ix : List Nat}
    (h : t.get ix = .ok t') :
    t.get_data_index ix false = .ok t'.base_index ∧
    t' = { data := t.data
           base_index := t'.base_index
           size := (get_size_and_strides (t.shape.drop ix.length)).1
           shape := t.shape.drop ix.length
           strides := t.strides.drop ix.length } := by
  rw [Tensor.get] at h
  cases hg : t.get_data_index ix false with
  | ok b =>
    rw [hg] at h
    have ht' := RResult.ok.inj h
    constructor
    · rw [← ht']
    · rw [← ht']
  | err e => rw [hg] at h; exact absurd h (by simp)
  | crash p => rw [hg] at h; exact absurd h (by simp)

/-! ### The invariant is preserved by every public operation -/

theorem invCore_from_array (arr : List α) : InvCore (Tensor.from_array arr) := by
  refine ⟨?_, ?_, ?_⟩
  · simp [Tensor.from_array, listProd]
  · simp [Tensor.from_array, gss_snd_cons, get_size_and_strides]
  · intro _
    simp [Tensor.from_array, listProd]

theorem invCore_from_iter (l : List α) : InvCore (Tensor.from_iter l) := by
  refine ⟨?_, ?_, ?_⟩
  · simp [Tensor.from_iter, listProd]
  · simp [Tensor.from_iter, gss_snd_cons, get_size_and_strides]
  · intro _
    simp [Tensor.from_iter, listProd]

theorem invCore_from_shape (v : α) (shape : List Nat) :
    InvCore (Tensor.from_shape v shape) := by
  refine ⟨gss_fst shape, rfl, ?_⟩
  intro _
  simp [Tensor.from_shape, gss_fst]

theorem invCore_rand (g : Nat → α) (shape : List Nat) :
    InvCore (Tensor.rand g shape) := by
  refine ⟨gss_fst shape, rfl, ?_⟩
  intro _
  simp [Tensor.rand, gss_fst]

theorem invCore_reshape {t t' : Tensor α} {s2 : List Nat}
    (hInv : InvCore t) (h : t.reshape s2 = .ok t') : InvCore t' := by
  obtain ⟨hsize, _, hbound⟩ := hInv
  rw [Tensor.reshape] at h
  by_cases hq : (get_size_and_strides s2).1 ≠ t.size
  · rw [if_pos hq] at h
    exact absurd h (by simp)
  · rw [if_neg hq] at h
    have hs2 : listProd s2 = t.size := by
      rw [← gss_fst]; omega
    have ht' := RResult.ok.inj h
    subst ht'
    refine ⟨?_, ?_, ?_⟩
    · simpa using hs2.symm
    · rfl
    · intro hpos
      dsimp only at hpos ⊢
      have h1 : listProd s2 = listProd t.shape := by rw [hs2, hsize]
      have hb := hbound (by omega)
      omega

theorem invCore_get {t t' : Tensor α} {ix : List Nat}
    (hInv : InvCore t) (h : t.get ix = .ok t') : InvCore t' := by
  obtain ⟨hsize, hstr, hbound⟩ := hInv
  have hlen : t.strides.length = t.shape.length := by
    rw [hstr]; exact gss_snd_length _
  obtain ⟨hgdi, ht'⟩ := get_ok_elim h
  obtain ⟨hk, hvalid, hb⟩ := gdi_ok_elim hlen hgdi
  have hdrop : t.strides.drop ix.length = (get_size_and_strides (t.shape.drop ix.length)).2 := by
    rw [hstr, gss_snd_drop]
  rw [ht']
  refine ⟨?_, ?_, ?_⟩
  · dsimp only
    exact gss_fst _
  · dsimp only
    exact hdrop
  · intro hpos
    dsimp only at hpos ⊢
    have hkey : dot ix (get_size_and_strides t.shape).2 +
        listProd (t.shape.drop ix.length) ≤ listProd t.shape :=
      dot_add_prod_drop_le ix t.shape hk hvalid
    rw [← hstr] at hkey
    have hband := hbound (by omega)
    omega

theorem invCore_flatten {t t' : Tensor α}
    (hInv : InvCore t) (h : t.flatten = .ok t') : InvCore t' :=
  invCore_reshape hInv h

/-! ### Correctness of the odometer carry -/

/-- One carry step on the `k`-th multi-index of a positive shape moves
to the `(k+1)`-th multi-index (all zeros again at the end), updates the
offset accordingly, and reports a carry past dimension 0 exactly when
the traversal is exhausted. -/
theorem carry_unrank (s : List Nat) :
    ∀ (st : List Nat) (b k : Nat), s.length = st.length →
      (∀ x ∈ s, 0 < x) → k < listProd s →
      carry (unrank s k) s st (b + dot (unrank s k) st) =
        (unrank s ((k + 1) % listProd s),
         b + dot (unrank s ((k + 1) % listProd s)) st,
         decide (k + 1 = listProd s)) := by
  induction s with
  | nil =>
    intro st b k hlen hpos hk
    have hst : st = [] := by
      cases st with
      | nil => rfl
      | cons c cs => simp at hlen
    subst hst
    have hk0 : k = 0 := by
      have : k < 1 := by simpa [listProd] using hk
      omega
    subst hk0
    simp [carry, unrank, dot_nil_left, listProd]
  | cons a ss ih =>
    intro st b k hlen hpos hk
    match st with
    | c :: cs =>
      have hlen' : ss.length = cs.length := by simpa using hlen
      have hpos' : ∀ x ∈ ss, 0 < x := fun x hx => hpos x (by simp [hx])
      have ha : 0 < a := hpos a (by simp)
      have hP' : 0 < listProd ss := listProd_pos hpos'
      have hkP : k < a * listProd ss := by simpa [listProd] using hk
      obtain ⟨i, k', hi, hk'lt, rfl⟩ :
          ∃ i k', i < a ∧ k' < listProd ss ∧ k = listProd ss * i + k' := by
        refine ⟨k / listProd ss, k % listProd ss, ?_, Nat.mod_lt _ hP',
          (Nat.div_add_mod k _).symm⟩
        exact (Nat.div_lt_iff_lt_mul hP').mpr hkP
      have hdivi : (listProd ss * i + k') / listProd ss = i := by
        rw [Nat.add_comm, Nat.add_mul_div_left _ _ hP', Nat.div_eq_of_lt hk'lt,
          Nat.zero_add]
      have hmodi : (listProd ss * i + k') % listProd ss = k' := by
        rw [Nat.add_comm, Nat.add_mul_mod_self_left, Nat.mod_eq_of_lt hk'lt]
      have hunrank_k :
          unrank (a :: ss) (listProd ss * i + k') = i :: unrank ss k' := by
        simp [unrank, hdivi, hmodi]
      have hIH := ih cs (b + i * c) k' hlen' hpos' hk'lt
      rw [hunrank_k]
      simp only [dot]
      rw [show b + (i * c + dot (unrank ss k') cs) =
        b + i * c + dot (unrank ss k') cs from by omega]
      by_cases hB : k' + 1 = listProd ss
      · -- the inner dimensions all wrap
        have hm0 : (k' + 1) % listProd ss = 0 := by rw [hB]; exact Nat.mod_self _
        rw [hm0, unrank_zero, dot_replicate_zero, Nat.add_zero,
          decide_eq_true hB] at hIH
        by_cases hia : i + 1 ≥ a
        · -- dimension 0 wraps as well: traversal exhausted
          have haeq : a = i + 1 := by omega
          subst haeq
          have hKP : listProd ss * i + k' + 1 = listProd ((i + 1) :: ss) := by
            simp only [listProd]
            have : (i + 1) * listProd ss = listProd ss * i + listProd ss := by ring
            omega
          rw [hKP, Nat.mod_self]
          simp only [carry, hIH]
          rw [if_pos (by omega : i + 1 ≥ i + 1)]
          have hoff : b + i * c + c - (i + 1) * c = b := by
            rw [Nat.succ_mul]
            omega
          rw [hoff]
          simp [unrank, unrank_zero, dot, dot_replicate_zero, List.replicate]
        · -- dimension 0 merely increments
          have hia' : i + 1 < a := by omega
          have hK1 : listProd ss * i + k' + 1 = listProd ss * (i + 1) := by
            rw [Nat.mul_succ]
            omega
          have hlt : listProd ss * (i + 1) < listProd (a :: ss) := by
            simp only [listProd]
            calc listProd ss * (i + 1) < listProd ss * a :=
                  mul_lt_mul_of_pos_left hia' hP'
              _ = a * listProd ss := Nat.mul_comm _ _
          have hdlt : ¬ (listProd ss * i + k' + 1 = listProd (a :: ss)) := by
            rw [hK1]
            omega
          rw [Nat.mod_eq_of_lt (by rw [hK1]; exact hlt), decide_eq_false hdlt]
          have hdiv2 : (listProd ss * i + k' + 1) / listProd ss = i + 1 := by
            rw [hK1, Nat.mul_div_cancel_left _ hP']
          have hmod2 : (listProd ss * i + k' + 1) % listProd ss = 0 := by
            rw [hK1]
            exact Nat.mul_mod_right _ _
          simp only [carry, hIH]
          rw [if_neg (by omega : ¬ i + 1 ≥ a)]
          simp [unrank, hdiv2, hmod2, unrank_zero, dot, dot_replicate_zero,
            Nat.succ_mul]
          omega
      · -- no wrap at the head of the remaining dimensions
        have hB' : k' + 1 < listProd ss := by omega
        rw [Nat.mod_eq_of_lt hB', decide_eq_false hB] at hIH
        have hK1lt : listProd ss * i + k' + 1 < listProd (a :: ss) := by
          simp only [listProd]
          have h1 : listProd ss * i + k' + 1 < listProd ss * i + listProd ss := by
            omega
          have h2 : listProd ss * i + listProd ss = listProd ss * (i + 1) := by ring
          have h3 : listProd ss * (i + 1) ≤ listProd ss * a :=
            Nat.mul_le_mul_left _ (by omega)
          have h4 : listProd ss * a = a * listProd ss := Nat.mul_comm _ _
          omega
        have hdne : ¬ (listProd ss * i + k' + 1 = listProd (a :: ss)) := by omega
        rw [Nat.mod_eq_of_lt hK1lt, decide_eq_false hdne]
        have hdiv3 : (listProd ss * i + k' + 1) / listProd ss = i := by
          rw [show listProd ss * i + k' + 1 = k' + 1 + listProd ss * i from by omega,
            Nat.add_mul_div_left _ _ hP', Nat.div_eq_of_lt hB', Nat.zero_add]
        have hmod3 : (listProd ss * i + k' + 1) % listProd ss = k' + 1 := by
          rw [show listProd ss * i + k' + 1 = k' + 1 + listProd ss * i from by omega,
            Nat.add_mul_mod_self_left, Nat.mod_eq_of_lt hB']
        simp only [carry, hIH]
        simp [unrank, hdiv3, hmod3, dot]
        omega

/-- One `next` call on the state after `k` yields (for a rank ≥ 1,
positive-extent tensor) yields the `k`-th offset and moves to the state
after `k + 1` yields. -/
theorem nextF_stateAt (t : Tensor α) (hs : t.shape ≠ [])
    (hpos : ∀ x ∈ t.shape, 0 < x)
    (hlen : t.strides.length = t.shape.length)
    (k : Nat) (hk : k < listProd t.shape) :
    nextF (stateAt t k) =
      (some (t.base_index + dot (unrank t.shape k) t.strides), stateAt t (k + 1)) := by
  have hmodk : k % listProd t.shape = k := Nat.mod_eq_of_lt hk
  have hcar := carry_unrank t.shape t.strides t.base_index k hlen.symm hpos hk
  rw [nextF]
  rw [stateAt, hmodk]
  rw [if_neg (by simp [decide_eq_true_eq]; omega)]
  rw [hcar]
  have hne : t.shape.isEmpty = false := by
    cases hq : t.shape with
    | nil => exact absurd hq hs
    | cons a as => rfl
  rw [stateAt]
  simp [hne, Bool.and_true]

/-- The freshly initialized iterator is the state after zero yields. -/
theorem initState_eq_stateAt (t : Tensor α) (hP : 0 < listProd t.shape) :
    initState t = stateAt t 0 := by
  rw [initState, stateAt]
  simp [Tensor.rank, Nat.zero_mod, unrank_zero, dot_replicate_zero,
    decide_eq_false (by omega : ¬ (0 = listProd t.shape))]

/-- Running the iterator from the state after `k` yields, with exactly
enough fuel, produces the remaining offsets and ends exhausted. -/
theorem runOffsets_stateAt (t : Tensor α) (hs : t.shape ≠ [])
    (hpos : ∀ x ∈ t.shape, 0 < x)
    (hlen : t.strides.length = t.shape.length) :
    ∀ (m k : Nat), k + m = listProd t.shape →
      runOffsets (m + 1) (stateAt t k) =
        ((List.range' k m).map
          (fun j => t.base_index + dot (unrank t.shape j) t.strides),
         stateAt t (listProd t.shape)) := by
  intro m
  induction m with
  | zero =>
    intro k hk
    have hk0 : k = listProd t.shape := by omega
    rw [runOffsets]
    have hdone : (stateAt t k).is_done = true := by
      simp [stateAt, hk0]
    rw [nextF, if_pos hdone]
    simp [List.range', hk0]
  | succ m ihm =>
    intro k hk
    have hklt : k < listProd t.shape := by omega
    rw [runOffsets, nextF_stateAt t hs hpos hlen k hklt]
    dsimp only
    rw [ihm (k + 1) (by omega)]
    simp [List.range']

/-! ### Rank-0 behaviour of the iterator -/

/-- On a rank-0 state the carry loop never runs, so `next` yields the
current offset and leaves the state exactly as it was: the iterator is
stuck yielding forever. -/
theorem nextF_rank0 (st : IterState α) (hsh : st.tensor.shape = [])
    (hix : st.index = []) (hdone : st.is_done = false) :
    nextF st = (some st.data_index, st) := by
  obtain ⟨⟨data, base, size, shape, strides⟩, ix, di, d⟩ := st
  simp only at hsh hix hdone
  subst hsh hix hdone
  rw [nextF]
  simp [carry]

/-- Consequently the element-collection loop of `deep_clone` never
finishes on a rank-0 tensor, whatever the fuel. -/
theorem collectElems_rank0 (st : IterState α) (hsh : st.tensor.shape = [])
    (hix : st.index = []) (hdone : st.is_done = false) :
    ∀ fuel, collectElems fuel st = none := by
  intro fuel
  induction fuel with
  | zero => rfl
  | succ fuel ih =>
    rw [collectElems, nextElem, nextF_rank0 st hsh hix hdone]
    dsimp only
    cases hread : dataGet st.tensor.data st.data_index with
    | ok v => simp [ih]
    | err e => simp
    | crash p => simp

/-- Completing the collection loop from the state after `k` yields
returns exactly the remaining `size − k` elements. -/
theorem collectElems_stateAt_length (t : Tensor α) (hs : t.shape ≠ [])
    (hpos : ∀ x ∈ t.shape, 0 < x)
    (hlen : t.strides.length = t.shape.length) :
    ∀ (fuel k : Nat) (vs : List α), k ≤ listProd t.shape →
      collectElems fuel (stateAt t k) = some vs →
      vs.length = listProd t.shape - k := by
  intro fuel
  induction fuel with
  | zero =>
    intro k vs _ h
    exact absurd h (by rw [collectElems]; simp)
  | succ fuel ih =>
    intro k vs hk h
    by_cases hkP : k = listProd t.shape
    · have hdone : (stateAt t k).is_done = true := by simp [stateAt, hkP]
      rw [collectElems, nextElem, nextF, if_pos hdone] at h
      simp at h
      subst h
      simp [hkP]
    · have hklt : k < listProd t.shape := by omega
      rw [collectElems, nextElem, nextF_stateAt t hs hpos hlen k hklt] at h
      simp only at h
      cases hread : dataGet (stateAt t (k + 1)).tensor.data
          (t.base_index + dot (unrank t.shape k) t.strides) with
      | ok v =>
        rw [hread] at h
        simp only [Option.map_eq_some'] at h
        obtain ⟨vs', hvs', rfl⟩ := h
        have := ih (k + 1) vs' (by omega) hvs'
        simp [this]
        omega
      | err e => rw [hread] at h; simp at h
      | crash p => rw [hread] at h; simp at h

/-- `deep_clone` preserves the invariant whenever it returns. -/
theorem invCore_deep_clone {t t' : Tensor α} {fuel : Nat}
    (hInv : InvCore t) (h : t.deep_clone fuel = some t') : InvCore t' := by
  obtain ⟨hsize, hstr, _⟩ := hInv
  rw [Tensor.deep_clone] at h
  cases hc : collectElems fuel (initState t) with
  | none => rw [hc] at h; exact absurd h (by simp)
  | some vs =>
    rw [hc] at h
    have ht' := Option.some.inj h
    subst ht'
    refine ⟨gss_fst _, rfl, ?_⟩
    intro hP
    dsimp only at hP ⊢
    have hpos : ∀ x ∈ t.shape, 0 < x := pos_of_listProd_pos hP
    cases hsh : t.shape with
    | nil =>
      have : collectElems fuel (initState t) = none := by
        refine collectElems_rank0 _ ?_ ?_ rfl fuel
        · exact hsh
        · simp [initState, Tensor.rank, hsh]
      rw [this] at hc
      exact absurd hc (by simp)
    | cons a as =>
      have hlen2 : t.strides.length = t.shape.length := by
        rw [hstr]; exact gss_snd_length _
      have hinit : initState t = stateAt t 0 := initState_eq_stateAt t hP
      rw [hinit] at hc
      have hlenvs := collectElems_stateAt_length t (by rw [hsh]; simp)
        hpos hlen2 fuel 0 vs (by omega) hc
      rw [hsh] at hlenvs
      omega

/-- Every reachable tensor satisfies the core invariant. -/
theorem invCore_of_reachable {α : Type} {t : Tensor α} (h : Reachable t) :
    InvCore t := by
  induction h with
  | from_array arr => exact invCore_from_array arr
  | from_iter l => exact invCore_from_iter l
  | from_shape v shape => exact invCore_from_shape v shape
  | scalar v => exact invCore_from_shape v []
  | rand g shape => exact invCore_rand g shape
  | get t t' ix _ hok ih => exact invCore_get ih hok
  | reshape t t' s2 _ hok ih => exact invCore_reshape ih hok
  | flatten t t' _ hok ih => exact invCore_flatten ih hok
  | deep_clone fuel t t' _ hok ih => exact invCore_deep_clone ih hok

/-- The claimed invariant follows from the core invariant. -/
theorem invClaim_of_invCore {t : Tensor α} (h : InvCore t) : InvClaim t := by
  obtain ⟨hsize, hstr, hbound⟩ := h
  refine ⟨hsize, hstr, ?_⟩
  intro hpos
  have hP := listProd_pos hpos
  have hb := hbound hP
  have hdot := dot_sub_one_strides hpos
  rw [hstr]
  omega

/-! ### Claim theorems -/

/-- C1: the claim states that a rank-0 tensor's traversal generator
yields exactly its base offset once and then terminates.  The code has
no rank-0 special case: on `scalar 1` the first call yields offset 0
but leaves the state completely unchanged, so the second call yields
offset 0 again and five calls yield five offsets — the generator never
terminates, contradicting the claim (the specification itself flags
this as a bug of the reference system that must be fixed). -/
theorem scalar_iterator_never_terminates :
    (nextF (initState (Tensor.scalar (1 : Nat)))).1 = some 0 ∧
    (nextF (initState (Tensor.scalar (1 : Nat)))).2 =
      initState (Tensor.scalar (1 : Nat)) ∧
    (nextF (nextF (initState (Tensor.scalar (1 : Nat)))).2).1 = some 0 ∧
    (runOffsets 5 (initState (Tensor.scalar (1 : Nat)))).1 = [0, 0, 0, 0, 0] := by
  decide

/-- C9: the claim states that `deep_clone` returns a fresh contiguous
copy for every tensor.  On a rank-0 tensor the element loop walks the
traversal generator, which never terminates (see C1), so
`deep_clone` on `scalar 1` never returns, whatever fuel the loop is
given. -/
theorem deep_clone_scalar_never_returns :
    ∀ fuel : Nat, (Tensor.scalar (1 : Nat)).deep_clone fuel = none := by
  intro fuel
  have h := collectElems_rank0 (initState (Tensor.scalar (1 : Nat))) rfl rfl rfl fuel
  rw [Tensor.deep_clone, h]

/-- C10: the claim states that iterating a tensor with a zero extent is
safe and empty (first call `None`, no out-of-bounds access).  On
`from_shape 0 [0]` (empty buffer) the index iterator's first call in
fact yields offset 0, and the element iterator's first call reads the
empty buffer out of bounds — a panic, not an empty iteration. -/
theorem zero_extent_iterator_unsafe :
    (Tensor.from_shape (0 : Nat) [0]).data = [] ∧
    (nextF (initState (Tensor.from_shape (0 : Nat) [0]))).1 = some 0 ∧
    (nextElem (initState (Tensor.from_shape (0 : Nat) [0]))).1 =
      some (.crash "index out of bounds") ∧
    (runElems 3 (initState (Tensor.from_shape (0 : Nat) [0]))).1 =
      [.crash "index out of bounds"] := by
  decide

/-- C7: `reshape` fails with the shape-mismatch error exactly when the
product of the new extents differs from the tensor's size; on success
it returns a view over the same buffer with the new shape, freshly
computed row-major strides, and the base offset preserved; and
`flatten` is literally `reshape [size]`. -/
theorem reshape_spec (t : Tensor α) (s2 : List Nat) :
    (t.reshape s2 = .err "new shape cannot be of a different size" ↔
      listProd s2 ≠ t.size) ∧
    (listProd s2 = t.size →
      t.reshape s2 = .ok { data := t.data
                           base_index := t.base_index
                           size := t.size
                           shape := s2
                           strides := (get_size_and_strides s2).2 }) ∧
    t.flatten = t.reshape [t.size] := by
  refine ⟨?_, ?_, rfl⟩
  · rw [Tensor.reshape, gss_fst]
    by_cases hq : listProd s2 ≠ t.size
    · rw [if_pos hq]
      simp [hq]
    · rw [if_neg hq]
      simp [hq]
  · intro hq
    rw [Tensor.reshape, gss_fst, if_neg (by omega)]

/-- Witness for C7 at `from_array [1,2,3,4]` reshaped to `[2,2]`. -/
theorem reshape_spec_witness :
    (Tensor.from_array ([1, 2, 3, 4] : List Nat)).reshape [2, 2] =
      .ok { data := [1, 2, 3, 4]
            base_index := 0
            size := 4
            shape := [2, 2]
            strides := [2, 1] } :=
  (reshape_spec (Tensor.from_array ([1, 2, 3, 4] : List Nat)) [2, 2]).2.1 (by decide)

/-- C8: the textual rendering of `from_array [1,2,3,4]` reshaped to
`[2,2]` is exactly the two-line string with nested brackets, comma
separators and one-space indentation, and a scalar renders as its bare
value. -/
theorem display_spec :
    (Tensor.from_array ([1, 2, 3, 4] : List Nat)).reshape [2, 2] = .ok t22 ∧
    t22.fmt (fun n => toString n) = .ok "[[1, 2]\n [3, 4]]" ∧
    (Tensor.scalar (5 : Nat)).fmt (fun n => toString n) = .ok "5" := by
  decide

/-- C4: `get` returns the dimensionality error exactly when the index
sequence is longer than the rank; within the rank it returns an
out-of-range error exactly when some index reaches its extent, and the
error names the first offending value and dimension; it succeeds
exactly when the guard and every range check pass.  All failures are
reported as error values. -/
theorem get_error_spec (t : Tensor α) (ix : List Nat)
    (hlen : t.strides.length = t.shape.length) :
    (t.get ix = .err "index has too many dimensions" ↔
      t.shape.length < ix.length) ∧
    (ix.length ≤ t.shape.length →
      ((∃ v d, t.get ix = .err (oorMsg v d)) ↔
        ∃ j, j < ix.length ∧ t.shape.getD j 0 ≤ ix.getD j 0)) ∧
    (ix.length ≤ t.shape.length →
      (∃ j, j < ix.length ∧ t.shape.getD j 0 ≤ ix.getD j 0) →
      ∃ j, j < ix.length ∧ (∀ l, l < j → ix.getD l 0 < t.shape.getD l 0) ∧
        t.shape.getD j 0 ≤ ix.getD j 0 ∧
        t.get ix = .err (oorMsg (ix.getD j 0) j)) ∧
    ((∃ u : Tensor α, t.get ix = .ok u) ↔
      (ix.length ≤ t.shape.length ∧
        ∀ j, j < ix.length → ix.getD j 0 < t.shape.getD j 0)) := by
  by_cases hg : ix.length > t.shape.length
  · have hget : t.get ix = .err "index has too many dimensions" := by
      rw [Tensor.get, Tensor.get_data_index, if_pos hg]
    refine ⟨?_, ?_, ?_, ?_⟩
    · simp only [hget]
      constructor
      · intro _; omega
      · intro _; trivial
    · intro hle; omega
    · intro hle; omega
    · simp only [hget]
      constructor
      · rintro ⟨u, hu⟩; exact absurd hu (by simp)
      · rintro ⟨hle, _⟩; omega
  · have hg' : ¬ ix.length > t.shape.length := hg
    rcases resolveLoop_cases ix t.shape t.strides t.base_index 0
        (by omega) (by omega) with
      ⟨hvalid, hres⟩ | ⟨j, hj, hpre, hviol, hres⟩
    · have hgdi : t.get_data_index ix false = .ok (t.base_index + dot ix t.strides) := by
        rw [Tensor.get_data_index, if_neg hg']
        exact hres
      have hget : t.get ix = .ok
          { data := t.data
            base_index := t.base_index + dot ix t.strides
            size := (get_size_and_strides (t.shape.drop ix.length)).1
            shape := t.shape.drop ix.length
            strides := t.strides.drop ix.length } := by
        rw [Tensor.get, hgdi]
      refine ⟨?_, ?_, ?_, ?_⟩
      · simp only [hget]
        constructor
        · intro hu; exact absurd hu (by simp)
        · intro hlt; omega
      · intro _
        constructor
        · rintro ⟨v, d, hu⟩
          rw [hget] at hu
          exact absurd hu (by simp)
        · rintro ⟨j, hj, hviol⟩
          have := hvalid j hj
          omega
      · intro _ hex
        obtain ⟨j, hj, hviol⟩ := hex
        have := hvalid j hj
        omega
      · constructor
        · intro _; exact ⟨by omega, hvalid⟩
        · intro _; exact ⟨_, hget⟩
    · rw [Nat.zero_add] at hres
      have hget : t.get ix = .err (oorMsg (ix.getD j 0) j) := by
        rw [Tensor.get, Tensor.get_data_index, if_neg hg', hres]
      refine ⟨?_, ?_, ?_, ?_⟩
      · simp only [hget]
        constructor
        · intro hu
          exact absurd (RResult.err.inj hu) (oorMsg_ne_dim _ _)
        · intro hlt; omega
      · intro _
        constructor
        · intro _; exact ⟨j, hj, hviol⟩
        · intro _; exact ⟨_, _, hget⟩
      · intro _ _
        exact ⟨j, hj, hpre, hviol, hget⟩
      · constructor
        · rintro ⟨u, hu⟩
          rw [hget] at hu
          exact absurd hu (by simp)
        · rintro ⟨_, hvalid⟩
          have := hvalid j hj
          omega

/-- Witness for C4: indexing a rank-1 tensor with a 2-entry index gives
the dimensionality error. -/
theorem get_error_spec_witness :
    (Tensor.from_array ([1, 2, 3] : List Nat)).get [1, 2] =
      .err "index has too many dimensions" :=
  ((get_error_spec (Tensor.from_array ([1, 2, 3] : List Nat)) [1, 2] rfl).1).mpr
    (by decide)

/-- C5: the index resolver computes `base_offset + Σ cᵢ·strideᵢ` over
the consumed dimensions, where `cᵢ` is the index taken modulo the
extent under tiling (always succeeding for positive extents) and the
raw index otherwise (under the in-range precondition). -/
theorem resolver_offset_spec (t : Tensor α) (ix : List Nat)
    (hlen : t.strides.length = t.shape.length)
    (hk : ix.length ≤ t.shape.length)
    (hpos : ∀ j, j < ix.length → 0 < t.shape.getD j 0) :
    t.get_data_index ix true =
      .ok (t.base_index +
        dot (List.zipWith (fun a s => a % s) ix t.shape) t.strides) ∧
    ((∀ j, j < ix.length → ix.getD j 0 < t.shape.getD j 0) →
      t.get_data_index ix false = .ok (t.base_index + dot ix t.strides)) := by
  constructor
  · rw [Tensor.get_data_index, if_neg (by omega)]
    exact resolveLoop_tile ix t.shape t.strides t.base_index 0 hk (by omega) hpos
  · intro hvalid
    rw [Tensor.get_data_index, if_neg (by omega)]
    rcases resolveLoop_cases ix t.shape t.strides t.base_index 0 hk (by omega) with
      ⟨_, hres⟩ | ⟨j, hj, _, hviol, _⟩
    · exact hres
    · have := hvalid j hj
      omega

/-- Witness for C5: extent 3, index 5, tiling enabled resolves as
index 2 (flat offset 2 with unit strides). -/
theorem resolver_offset_spec_witness :
    (Tensor.from_array ([10, 20, 30] : List Nat)).get_data_index [5] true =
      .ok 2 := by
  have h := (resolver_offset_spec (Tensor.from_array ([10, 20, 30] : List Nat)) [5]
    (by decide) (by decide) (by decide)).1
  exact h.trans (by decide)

/-- C6: a successful `get` returns a view sharing the buffer, whose
shape and strides are the unconsumed suffixes, whose base offset is the
resolved flat offset, whose size is recomputed as the product of the
residual shape, and whose rank drops by the number of consumed indices
(a full index on a 1-D tensor yields a rank-0 scalar view). -/
theorem get_view_spec (t t' : Tensor α) (ix : List Nat)
    (h : t.get ix = .ok t') :
    t'.data = t.data ∧
    t'.shape = t.shape.drop ix.length ∧
    t'.strides = t.strides.drop ix.length ∧
    t'.size = listProd (t.shape.drop ix.length) ∧
    t.get_data_index ix false = .ok t'.base_index ∧
    t'.shape.length = t.shape.length - ix.length ∧
    (ix.length = t.shape.length → t'.shape = []) := by
  obtain ⟨hgdi, ht'⟩ := get_ok_elim h
  refine ⟨?_, ?_, ?_, ?_, hgdi, ?_, ?_⟩
  · rw [ht']
  · rw [ht']
  · rw [ht']
  · rw [ht']
    exact gss_fst _
  · rw [ht']
    simp
  · intro hfull
    rw [ht']
    simp [hfull]

/-- Witness for C6: `from_array [10,20]` indexed at `[1]` yields the
rank-0 view at offset 1 sharing the buffer. -/
theorem get_view_spec_witness :
    (Tensor.from_array ([10, 20] : List Nat)).get [1] = .ok scalarView ∧
    scalarView.shape = [] ∧
    scalarView.data = (Tensor.from_array ([10, 20] : List Nat)).data := by
  refine ⟨by decide, ?_, ?_⟩
  · exact (get_view_spec (Tensor.from_array ([10, 20] : List Nat)) scalarView [1]
      (by decide)).2.2.2.2.2.2 (by decide)
  · exact (get_view_spec (Tensor.from_array ([10, 20] : List Nat)) scalarView [1]
      (by decide)).1

/-- C2: for a rank ≥ 1 tensor with positive extents (and the invariant
metadata every real tensor carries), the traversal generator yields
exactly `size` offsets — the `k`-th being `base_offset` plus the dot
product of the `k`-th lexicographic multi-index with the strides — and
is then exhausted; in particular `from_array [1,2,3,4,5,6]` reshaped to
`[2,3]` iterates its elements as `1,2,3,4,5,6`. -/
theorem traversal_rowmajor (t : Tensor α) (hs : t.shape ≠ [])
    (hpos : ∀ x ∈ t.shape, 0 < x)
    (hlen : t.strides.length = t.shape.length)
    (hsize : t.size = listProd t.shape) :
    (runOffsets (t.size + 1) (initState t)).1 =
      (List.range t.size).map
        (fun k => t.base_index + dot (unrank t.shape k) t.strides) ∧
    (runOffsets (t.size + 1) (initState t)).2.is_done = true ∧
    (nextF (runOffsets (t.size + 1) (initState t)).2).1 = none ∧
    (Tensor.from_array ([1, 2, 3, 4, 5, 6] : List Nat)).reshape [2, 3] = .ok t23 ∧
    (runElems 7 (initState t23)).1 =
      [.ok 1, .ok 2, .ok 3, .ok 4, .ok 5, .ok 6] := by
  have hP : 0 < listProd t.shape := listProd_pos hpos
  have hinit : initState t = stateAt t 0 := initState_eq_stateAt t hP
  have hrun := runOffsets_stateAt t hs hpos hlen t.size 0 (by omega)
  rw [hinit, hrun]
  refine ⟨?_, ?_, ?_, by decide, by decide⟩
  · dsimp only
    rw [List.range_eq_range']
  · simp [stateAt]
  · simp [nextF, stateAt]

/-- Witness for C2 at the `[2,3]` example tensor: six offsets in
row-major order, then exhaustion. -/
theorem traversal_rowmajor_witness :
    (runOffsets 7 (initState t23)).1 = [0, 1, 2, 3, 4, 5] := by
  have h := (traversal_rowmajor t23 (by decide) (by decide) (by decide) (by decide)).1
  exact h.trans (by decide)

/-- C3: every tensor reachable through the public API — the
constructors (including `linspace`, which builds via `from_iter`) and
the derived views/copies — has its cached size equal to the product of
its extents, carries the row-major strides of its shape, and, when all
extents are positive, addresses only in-bounds buffer offsets. -/
theorem reachable_invariants :
    (∀ {α : Type} (t : Tensor α), Reachable t → InvClaim t) ∧
    (∀ (x0 xend : ℚ) (n : Nat), Reachable (Tensor.linspace x0 xend n)) := by
  constructor
  · intro α t h
    exact invClaim_of_invCore (invCore_of_reachable h)
  · intro x0 xend n
    exact Reachable.from_iter _

/-- Witness for C3 at a concrete constructor call. -/
theorem reachable_invariants_witness :
    InvClaim (Tensor.from_array ([1, 2, 3] : List Nat)) :=
  reachable_invariants.1 _ (Reachable.from_array _)

end CrabTorch
